import Mathlib

/-!
Verification of a Monte-Carlo trading-analysis program (Python) against its
natural-language specification.  The Python source is embedded shallowly:
floats become exact rationals (ℚ), pandas/numpy array operations become List
operations, and fallible code paths (pandas KeyError, error-dict returns)
become explicit sum types or error flags.  The `logger` calls of the source
are pure side effects and are not modelled.
-/

/-- Arithmetic mean of a list of rationals, as computed by numpy `np.mean`
(sum divided by length; Lean division by zero yields 0 where numpy would
produce a NaN warning, a case never reached in the verified paths). -/
def listMean (l : List ℚ) : ℚ :=
  l.sum / (l.length : ℚ)

instance decRelGeRat : DecidableRel (fun a b : ℚ => b ≤ a) :=
  fun a b => inferInstanceAs (Decidable (b ≤ a))

instance isTotalGeRat : IsTotal ℚ (fun a b : ℚ => b ≤ a) :=
  ⟨fun a b => le_total b a⟩

instance isTransGeRat : IsTrans ℚ (fun a b : ℚ => b ≤ a) :=
  ⟨fun _ _ _ h1 h2 => le_trans h2 h1⟩

/-- Python `sorted(xs)` on rationals (ascending). -/
def sortAsc (l : List ℚ) : List ℚ :=
  l.insertionSort (fun a b => a ≤ b)

/-- Python `sorted(xs, reverse=True)` on rationals (descending). -/
def sortDesc (l : List ℚ) : List ℚ :=
  l.insertionSort (fun a b => b ≤ a)

/-- Python substring test `needle in haystack` on character lists. -/
def containsSub (needle : List Char) : List Char → Bool
  | [] => needle.isEmpty
  | c :: cs => needle.isPrefixOf (c :: cs) || containsSub needle cs

/-! ## config/settings.py and config/asset_config.py constants -/

/-- STRATEGY_CONFIG risk_per_trade = 0.02. -/
def risk_per_trade : ℚ := 2 / 100

/-- STRATEGY_CONFIG kelly_fraction = 0.5. -/
def kelly_fraction : ℚ := 1 / 2

/-- STRATEGY_CONFIG stop_loss_multiplier = 2.0. -/
def stop_loss_multiplier : ℚ := 2

/-- STRATEGY_CONFIG min_risk_reward = 2.0. -/
def min_risk_reward : ℚ := 2

/-- BACKTEST_CONFIG initial_capital = 10000 (env default). -/
def backtest_initial_capital : ℚ := 10000

/-- BACKTEST_CONFIG commission = 0.001 (env default). -/
def backtest_commission : ℚ := 1 / 1000

/-- BACKTEST_CONFIG slippage = 0.0005 (env default). -/
def backtest_slippage : ℚ := 1 / 2000

/-- GOLD_SILVER_RATIO high_threshold = 80 (silver cheap above this). -/
def gsr_high_threshold : ℚ := 80

/-- GOLD_SILVER_RATIO low_threshold = 60 (gold cheap below this). -/
def gsr_low_threshold : ℚ := 60

/-! ## strategy/position_manager.py : PositionManager.calculate_position_size -/

/-- Result dictionary of `PositionManager.calculate_position_size`.  The
error branch of the source returns a dict with keys `shares`,
`position_value`, `risk_amount` (all 0) and `error`; the success branch has
no `error` key but adds `risk_per_share` and `capital_used_pct`; the
optional fields model the keys that exist only in one branch. -/
structure PositionSizeResult where
  shares : ℚ
  position_value : ℚ
  risk_amount : ℚ
  risk_per_share : Option ℚ
  capital_used_pct : Option ℚ
  error : Bool
deriving DecidableEq

/-- Python `risk_pct = risk_pct or self.risk_per_trade`: `None` and the
falsy float `0.0` both fall back to the configured default. -/
def effectiveRiskPct (risk_pct : Option ℚ) : ℚ :=
  match risk_pct with
  | none => risk_per_trade
  | some r => if r = 0 then risk_per_trade else r

/-- PositionManager.calculate_position_size (position_manager.py lines
145-200), translated over ℚ. -/
def calculate_position_size (capital entry_price stop_loss : ℚ)
    (risk_pct : Option ℚ) : PositionSizeResult :=
  let rp := effectiveRiskPct risk_pct
  let risk_amount := capital * rp
  let risk_per_share := entry_price - stop_loss
  if risk_per_share ≤ 0 then
    ⟨0, 0, 0, none, none, true⟩
  else
    let shares := risk_amount / risk_per_share
    let position_value := shares * entry_price
    ⟨shares, position_value, risk_amount, some risk_per_share,
      some (position_value / capital * 100), false⟩

/-! ## analysis/risk_calculator.py : RiskCalculator.kelly_criterion -/

/-- RiskCalculator.kelly_criterion (risk_calculator.py lines 66-119),
translated over ℚ with the configured kelly_fraction = 1/2. -/
def kelly_criterion (win_rate avg_win avg_loss : ℚ) : ℚ :=
  if win_rate ≤ 0 ∨ 1 ≤ win_rate then 0
  else if avg_win ≤ 0 ∨ avg_loss ≤ 0 then 0
  else
    let p := win_rate
    let q := 1 - win_rate
    let b := avg_win / avg_loss
    let kelly_pct := (p * b - q) / b
    if kelly_pct ≤ 0 then 0
    else min (kelly_pct * kelly_fraction) (25 / 100)

/-! ## analysis/monte_carlo_simulator.py : calculate_target_probability -/

/-- MonteCarloSimulator.calculate_target_probability (monte_carlo_simulator.py
lines 129-149).  A price-path matrix is a list of rows; `price_paths[:, -1]`
is the last entry of each row (rows of a numpy 2-D array are nonempty and the
default 0 of `getLastD` is never read for nonempty rows). -/
def calculate_target_probability (price_paths : List (List ℚ))
    (target_price : ℚ) : ℚ :=
  let final_prices := price_paths.map (fun p => p.getLastD 0)
  let above_target := (final_prices.filter (fun x => target_price ≤ x)).length
  (above_target : ℚ) / (final_prices.length : ℚ)

/-! ## strategy/position_manager.py : PositionManager.partial_exit_strategy -/

/-- One element of the `exits` list of partial_exit_strategy; `level` keeps
the threshold tag of the source string ('50% Hedef' / '75% Hedef' /
'100% Hedef') as the number 50, 75 or 100. -/
structure PartialExit where
  level : Nat
  price : ℚ
  shares : ℚ
deriving DecidableEq

/-- Result of PositionManager.partial_exit_strategy. -/
structure ExitStrategyResult where
  current_price : ℚ
  profit_pct : ℚ
  exits : List PartialExit
  remaining_shares : ℚ
deriving DecidableEq

/-- PositionManager.partial_exit_strategy (position_manager.py lines
237-300), translated over ℚ.  Lean division by zero makes `profit_pct`
total where Python would raise for entry_price = 0. -/
def partial_exit_strategy (entry_price current_price target_price
    total_shares : ℚ) : ExitStrategyResult :=
  let profit_pct := (current_price - entry_price) / entry_price
  let target_50_pct := entry_price + (target_price - entry_price) * (5 / 10)
  let exits0 : List PartialExit :=
    if target_50_pct ≤ current_price then
      [⟨50, target_50_pct, total_shares * (30 / 100)⟩] else []
  let target_75_pct := entry_price + (target_price - entry_price) * (75 / 100)
  let exits1 : List PartialExit :=
    exits0 ++ (if target_75_pct ≤ current_price then
      [⟨75, target_75_pct, total_shares * (30 / 100)⟩] else [])
  let exits : List PartialExit :=
    exits1 ++ (if target_price ≤ current_price then
      [⟨100, target_price, total_shares * (40 / 100)⟩] else [])
  ⟨current_price, profit_pct * 100, exits,
    total_shares - (exits.map PartialExit.shares).sum⟩

/-! ## analysis/performance_metrics.py : calculate_profit_factor -/

/-- A completed trade as far as the profit-factor computation reads it:
only the `pnl` column of the trade dictionaries is consulted. -/
structure PMTrade where
  pnl : ℚ
deriving DecidableEq

/-- Error raised by `pd.DataFrame(trades)['pnl']` when `trades` is the empty
list: the empty DataFrame has no `pnl` column and pandas raises KeyError. -/
inductive DfKeyError where
  | pnl_missing : DfKeyError
deriving DecidableEq

/-- Profit factor value: gross profit / |gross loss|, or the float value
`inf` when there is no losing trade, modelled as `WithTop ℚ` (⊤ = +∞). -/
abbrev ProfitFactor := WithTop ℚ

/-- Gross profit: sum of the strictly positive trade P&Ls. -/
def gross_profit (trades : List PMTrade) : ℚ :=
  ((trades.map PMTrade.pnl).filter (fun x => 0 < x)).sum

/-- Gross loss: absolute value of the sum of the strictly negative P&Ls. -/
def gross_loss (trades : List PMTrade) : ℚ :=
  |((trades.map PMTrade.pnl).filter (fun x => x < 0)).sum|

/-- PerformanceMetrics.calculate_profit_factor (performance_metrics.py lines
73-89).  The empty trade list reproduces the pandas KeyError (missing `pnl`
column of an empty DataFrame) as an `Except.error`. -/
def calculate_profit_factor (trades : List PMTrade) :
    Except DfKeyError ProfitFactor :=
  if trades.isEmpty then .error .pnl_missing
  else if gross_loss trades = 0 then .ok ⊤
  else .ok ((gross_profit trades / gross_loss trades : ℚ) : ProfitFactor)

/-! ## analysis/gold_silver_ratio.py -/

/-- Signal classification of GoldSilverRatio.analyze_ratio lines 91-99
(the Turkish strings are kept as constructor tags). -/
inductive RatioSignal where
  | silver_cheap : RatioSignal
  | gold_cheap : RatioSignal
  | normal : RatioSignal
deriving DecidableEq

/-- Classification branch of GoldSilverRatio.analyze_ratio (lines 91-99):
the function of the current ratio alone.  Upstream, `current_ratio` is the
last value of the merged gold/silver close-ratio series; the surrounding
statistics (mean, std, z-score via a real square root) do not influence
this branch. -/
def analyze_ratio_signal (current_ratio : ℚ) : RatioSignal :=
  if gsr_high_threshold < current_ratio then .silver_cheap
  else if current_ratio < gsr_low_threshold then .gold_cheap
  else .normal

/-- Trade actions of ratio_trading_signal (AL = buy, SAT = sell,
BEKLE = wait). -/
inductive TradeAction where
  | al : TradeAction
  | sat : TradeAction
  | bekle : TradeAction
deriving DecidableEq

/-- Confidence levels of ratio_trading_signal (Yüksek = high, Orta = medium,
Düşük = low). -/
inductive Confidence where
  | yuksek : Confidence
  | orta : Confidence
  | dusuk : Confidence
deriving DecidableEq

/-- Result of GoldSilverRatio.ratio_trading_signal (the `strategy` string of
the source is determined by the `(gold_action, silver_action)` pair and is
not duplicated here). -/
structure RatioTradeSignal where
  gold_action : TradeAction
  silver_action : TradeAction
  confidence : Confidence
  ratio : ℚ
  z_score : ℚ
deriving DecidableEq

/-- Decision core of GoldSilverRatio.ratio_trading_signal (gold_silver_ratio
.py lines 129-181) as a function of the current ratio and z-score computed
by analyze_ratio (the z-score itself involves a real-valued standard
deviation upstream; the decision logic below is exact). -/
def ratio_trading_signal (ratio z_score : ℚ) : RatioTradeSignal :=
  if gsr_high_threshold < ratio ∧ 1 < z_score then
    ⟨.sat, .al, if 2 < z_score then .yuksek else .orta, ratio, z_score⟩
  else if ratio < gsr_low_threshold ∧ z_score < -1 then
    ⟨.al, .sat, if z_score < -2 then .yuksek else .orta, ratio, z_score⟩
  else
    ⟨.bekle, .bekle, .dusuk, ratio, z_score⟩

/-! ## utils/telegram_utils.py : split_long_message

Python strings become character lists; `message.split(chr(10))` and
`nl.join(chunks)` become `splitOnNl` and `intercalateNl`. -/

/-- Python `message.split(chr(10))` on character lists (always returns at
least one piece; pieces contain no newline character). -/
def splitOnNl : List Char → List (List Char)
  | [] => [[]]
  | c :: cs =>
    let r := splitOnNl cs
    if c = '\n' then [] :: r
    else
      match r with
      | [] => [[c]]
      | l :: ls => (c :: l) :: ls

/-- Python `chr(10).join(pieces)` on character lists. -/
def intercalateNl : List (List Char) → List Char
  | [] => []
  | [l] => l
  | l :: ls => l ++ '\n' :: intercalateNl ls

/-- Loop of split_long_message (telegram_utils.py lines 151-166): greedy
accumulation of whole lines into chunks.  `chunks` and `current_chunk`
mirror the Python locals; `current_length` counts each line as its length
plus one newline. -/
def split_lines_go (max_length : Nat) :
    List (List Char) → List (List Char) → List (List Char) → Nat →
    List (List Char)
  | [], chunks, current_chunk, _ =>
    if current_chunk.isEmpty then chunks
    else chunks ++ [intercalateNl current_chunk]
  | line :: rest, chunks, current_chunk, current_length =>
    let line_length := line.length + 1
    if max_length < current_length + line_length then
      split_lines_go max_length rest (chunks ++ [intercalateNl current_chunk])
        [line] line_length
    else
      split_lines_go max_length rest chunks (current_chunk ++ [line])
        (current_length + line_length)

/-- split_long_message (telegram_utils.py lines 131-167).  The Telegram
default for max_length is 4096. -/
def split_long_message (message : List Char) (max_length : Nat) :
    List (List Char) :=
  if message.length ≤ max_length then [message]
  else split_lines_go max_length (splitOnNl message) [] [] 0

/-! ## bot/command_parser.py : keyword extraction -/

/-- Analysis types returned by CommandParser._extract_analysis_type. -/
inductive AnalysisType where
  | full_analysis : AnalysisType
  | monte_carlo : AnalysisType
  | technical : AnalysisType
  | support_resistance : AnalysisType
  | strategy : AnalysisType
  | backtest : AnalysisType
deriving DecidableEq

/-- Assets returned by CommandParser._extract_asset. -/
inductive ParsedAsset where
  | silver : ParsedAsset
  | gold : ParsedAsset
deriving DecidableEq

/-- Silver keywords of _extract_asset (command_parser.py line 57). -/
def silver_keywords : List (List Char) :=
  [ "gümüş".toList, "gumus".toList, "silver".toList, "xag".toList,
    "ag".toList ]

/-- Gold keywords of _extract_asset (command_parser.py line 63). -/
def gold_keywords : List (List Char) :=
  [ "altın".toList, "altin".toList, "gold".toList, "xau".toList,
    "au".toList ]

/-- CommandParser._extract_asset (command_parser.py lines 52-69); the
command has already been lower-cased by parse_command. -/
def extract_asset (command : List Char) : ParsedAsset :=
  if silver_keywords.any (fun k => containsSub k command) then .silver
  else if gold_keywords.any (fun k => containsSub k command) then .gold
  else .silver

/-- Full-analysis keywords of _extract_analysis_type (line 76). -/
def full_analysis_keywords : List (List Char) :=
  [ "tam analiz".toList, "full analysis".toList, "komple".toList ]

/-- Monte-Carlo keywords of _extract_analysis_type (line 80). -/
def monte_carlo_keywords : List (List Char) :=
  [ "monte carlo".toList, "simülasyon".toList, "simulasyon".toList,
    "projeksiyon".toList, "tahmin".toList ]

/-- Technical-analysis keywords of _extract_analysis_type (line 84). -/
def technical_keywords : List (List Char) :=
  [ "teknik".toList, "technical".toList, "gösterge".toList, "ema".toList,
    "rsi".toList, "macd".toList ]

/-- Support/resistance keywords of _extract_analysis_type (line 88). -/
def support_resistance_keywords : List (List Char) :=
  [ "destek".toList, "direnç".toList, "support".toList,
    "resistance".toList, "seviye".toList ]

/-- Strategy keywords of _extract_analysis_type (line 92). -/
def strategy_keywords : List (List Char) :=
  [ "strateji öner".toList, "strategy".toList, "giriş noktası".toList ]

/-- Backtest keywords of _extract_analysis_type (line 96). -/
def backtest_keywords : List (List Char) :=
  [ "backtest".toList, "test".toList, "geçmiş".toList ]

/-- All analysis keywords, in the priority order of the source. -/
def all_analysis_keywords : List (List Char) :=
  full_analysis_keywords ++ monte_carlo_keywords ++ technical_keywords ++
    support_resistance_keywords ++ strategy_keywords ++ backtest_keywords

/-- CommandParser._extract_analysis_type (command_parser.py lines 71-100):
fixed priority order with full-analysis phrasing checked first and
full_analysis as the default; the command has already been lower-cased. -/
def extract_analysis_type (command : List Char) : AnalysisType :=
  if full_analysis_keywords.any (fun k => containsSub k command) then
    .full_analysis
  else if monte_carlo_keywords.any (fun k => containsSub k command) then
    .monte_carlo
  else if technical_keywords.any (fun k => containsSub k command) then
    .technical
  else if support_resistance_keywords.any (fun k => containsSub k command) then
    .support_resistance
  else if strategy_keywords.any (fun k => containsSub k command) then
    .strategy
  else if backtest_keywords.any (fun k => containsSub k command) then
    .backtest
  else .full_analysis

/-! ## strategy/support_resistance.py -/

/-- One bar of the price DataFrame: the High, Low and Close columns used by
the support/resistance and backtest code. -/
structure Bar where
  high : ℚ
  low : ℚ
  close : ℚ
deriving DecidableEq

/-- Element access `xs.take(locs ± shift, mode=clip)` of scipy: the index is
clamped into `[0, len-1]` before reading — a negative index reads the first
element and an index at or past the end reads the last (equivalently,
`xs.getD (clamp j) 0`, written without recomputing `xs.length` on every
access). -/
def takeClip (xs : List ℚ) (j : Int) : ℚ :=
  if j < 0 then xs.headD 0
  else
    match xs.drop j.toNat with
    | [] => xs.getLastD 0
    | x :: _ => x

/-- scipy.signal.argrelextrema(xs, np.less_equal, order, mode=clip): the
indices whose value is ≤ every neighbour within `order` positions on both
sides (indices clipped at the boundaries). -/
def argrel_min_indices (xs : List ℚ) (order : Nat) : List Nat :=
  (List.range xs.length).filter (fun i =>
    (List.range order).all (fun s =>
      decide (xs.getD i 0 ≤ takeClip xs ((i : Int) + ((s : Int) + 1))) &&
      decide (xs.getD i 0 ≤ takeClip xs ((i : Int) - ((s : Int) + 1)))))

/-- scipy.signal.argrelextrema(xs, np.greater_equal, order, mode=clip). -/
def argrel_max_indices (xs : List ℚ) (order : Nat) : List Nat :=
  (List.range xs.length).filter (fun i =>
    (List.range order).all (fun s =>
      decide (takeClip xs ((i : Int) + ((s : Int) + 1)) ≤ xs.getD i 0) &&
      decide (takeClip xs ((i : Int) - ((s : Int) + 1)) ≤ xs.getD i 0)))

/-- Loop of SupportResistance._cluster_levels (support_resistance.py lines
123-136): the remaining sorted levels, the current cluster (nonempty) and
the accumulated cluster means.  Lean division by zero stands in for the
Python ZeroDivisionError when a cluster mean is 0 (never reached for price
data). -/
def cluster_go (tolerance : ℚ) :
    List ℚ → List ℚ → List ℚ → List ℚ
  | [], current_cluster, clustered => clustered ++ [listMean current_cluster]
  | level :: rest, current_cluster, clustered =>
    let cluster_mean := listMean current_cluster
    if |level - cluster_mean| / cluster_mean ≤ tolerance then
      cluster_go tolerance rest (current_cluster ++ [level]) clustered
    else
      cluster_go tolerance rest [level] (clustered ++ [listMean current_cluster])

/-- SupportResistance._cluster_levels (support_resistance.py lines 101-138). -/
def cluster_levels (levels : List ℚ) (tolerance : ℚ) : List ℚ :=
  match sortAsc levels with
  | [] => []
  | x :: rest => cluster_go tolerance rest [x] []

/-- Backfill loop for missing support levels (support_resistance.py lines
72-78): append recent lows strictly below the current price that are not
already present, stopping once num_levels entries exist. -/
def backfill_supports (current_price : ℚ) (num_levels : Nat) :
    List ℚ → List ℚ → List ℚ
  | [], support_below => support_below
  | low :: rest, support_below =>
    let support_below1 :=
      if low < current_price ∧ low ∉ support_below then
        support_below ++ [low]
      else support_below
    if num_levels ≤ support_below1.length then support_below1
    else backfill_supports current_price num_levels rest support_below1

/-- Backfill loop for missing resistance levels (support_resistance.py lines
80-86). -/
def backfill_resistances (current_price : ℚ) (num_levels : Nat) :
    List ℚ → List ℚ → List ℚ
  | [], resistance_above => resistance_above
  | high :: rest, resistance_above =>
    let resistance_above1 :=
      if current_price < high ∧ high ∉ resistance_above then
        resistance_above ++ [high]
      else resistance_above
    if num_levels ≤ resistance_above1.length then resistance_above1
    else backfill_resistances current_price num_levels rest resistance_above1

/-- Result of find_support_resistance_levels. -/
structure SRLevels where
  support : List ℚ
  resistance : List ℚ
  current_price : ℚ
deriving DecidableEq

/-- Python `xs[-252:]`: the last 252 elements (all of them when fewer). -/
def lastN (xs : List ℚ) (n : Nat) : List ℚ :=
  xs.drop (xs.length - n)

/-- SupportResistance.find_support_resistance_levels (support_resistance.py
lines 23-99) with its defaults order = 5 and num_levels = 3 made explicit
parameters.  Requires a nonempty DataFrame exactly as the source does
(`closes[-1]`); `getLastD` reads the default 0 only for empty data. -/
def find_support_resistance_levels (data : List Bar) (order num_levels : Nat) :
    SRLevels :=
  let closes := data.map Bar.close
  let highs := data.map Bar.high
  let lows := data.map Bar.low
  let support_levels0 := (argrel_min_indices lows order).map (fun i => lows.getD i 0)
  let resistance_levels0 := (argrel_max_indices highs order).map (fun i => highs.getD i 0)
  let support_levels := cluster_levels support_levels0 (2 / 100)
  let resistance_levels := cluster_levels resistance_levels0 (2 / 100)
  let current_price := closes.getLastD 0
  let support_below0 :=
    (sortDesc (support_levels.filter (fun s => decide (s < current_price)))).take num_levels
  let resistance_above0 :=
    (sortAsc (resistance_levels.filter (fun r => decide (current_price < r)))).take num_levels
  let support_below :=
    if support_below0.length < num_levels then
      backfill_supports current_price num_levels
        ((sortAsc (lastN lows 252)).take num_levels) support_below0
    else support_below0
  let resistance_above :=
    if resistance_above0.length < num_levels then
      backfill_resistances current_price num_levels
        ((sortDesc (lastN highs 252)).take num_levels) resistance_above0
    else resistance_above0
  ⟨(sortDesc support_below).take num_levels,
    (sortAsc resistance_above).take num_levels,
    current_price⟩

/-! ## strategy/position_manager.py : create_entry_strategy -/

/-- One entry level of the 3-step entry strategy (the Turkish description
strings of the source are omitted; `level` is 1, 2 or 3). -/
structure EntryLevel where
  level : Nat
  price : ℚ
  size_pct : ℚ
deriving DecidableEq

/-- Result of PositionManager.create_entry_strategy; `warning` is true when
the source stores a low risk/reward warning string instead of None. -/
structure EntryStrategy where
  current_price : ℚ
  entries : List EntryLevel
  stop_loss : ℚ
  target : ℚ
  risk_reward_ratio : ℚ
  atr_used : ℚ
  nearest_support : ℚ
  nearest_resistance : ℚ
  warning : Bool
deriving DecidableEq

/-- PositionManager._calculate_position_distribution (position_manager.py
lines 127-143): returns distributions[2] = [30, 35, 35]. -/
def calculate_position_distribution : List ℚ := [30, 35, 35]

/-- PositionManager.create_entry_strategy (position_manager.py lines
28-125), translated over ℚ. -/
def create_entry_strategy (support_levels resistance_levels : List ℚ)
    (current_price atr : ℚ) : EntryStrategy :=
  let nearest_support := support_levels.headD (current_price * (95 / 100))
  let nearest_resistance := resistance_levels.headD (current_price * (110 / 100))
  let stop_loss := nearest_support - atr * stop_loss_multiplier
  let target_price := nearest_resistance
  let risk := current_price - stop_loss
  let reward := target_price - current_price
  let risk_reward_ratio := if 0 < risk then reward / risk else 0
  let entry_1 := current_price
  let entry_2 :=
    if nearest_support < current_price then nearest_support + atr * (5 / 10)
    else current_price * (98 / 100)
  let entry_3 :=
    if 1 < support_levels.length then support_levels.getD 1 0
    else nearest_support * (97 / 100)
  let sizes := calculate_position_distribution
  ⟨current_price,
    [⟨1, entry_1, sizes.getD 0 0⟩, ⟨2, entry_2, sizes.getD 1 0⟩,
      ⟨3, entry_3, sizes.getD 2 0⟩],
    stop_loss, target_price, risk_reward_ratio, atr, nearest_support,
    nearest_resistance, risk_reward_ratio < min_risk_reward⟩

/-! ## backtest/backtest_engine.py -/

/-- Technical-analysis view consumed by the backtest loop: the fields of
TechnicalAnalyzer.get_full_technical_analysis that run_backtest and
_check_buy_signal actually read (`tech['atr']['value']`,
`tech['rsi']['status'] == 'oversold'`, `tech['macd']['status'] ==
'bullish'`).  The analyzer itself is kept abstract: the backtest theorems
hold for every analyzer output. -/
structure TechView where
  atr : ℚ
  rsi_oversold : Bool
  macd_bullish : Bool

/-- An open position of the backtest loop (dates are positional indices of
the input series). -/
structure BTPosition where
  entry_date : Nat
  entry_price : ℚ
  shares : ℚ
  stop_loss : ℚ
  target : ℚ
deriving DecidableEq

/-- Exit reasons recorded on completed backtest trades. -/
inductive ExitReason where
  | stop_loss : ExitReason
  | target : ExitReason
  | backtest_end : ExitReason
deriving DecidableEq

/-- A completed trade of the backtest engine. -/
structure BTTrade where
  entry_date : Nat
  exit_date : Nat
  entry_price : ℚ
  exit_price : ℚ
  shares : ℚ
  pnl : ℚ
  return_pct : ℚ
  exit_reason : ExitReason
deriving DecidableEq

/-- Mutable state of the run_backtest day loop. -/
structure BTState where
  capital : ℚ
  positions : List BTPosition
  trades : List BTTrade
  equity_curve : List ℚ
  dates : List Nat
deriving DecidableEq

/-- BacktestEngine._check_buy_signal (backtest_engine.py lines 205-238). -/
def check_buy_signal (tech : TechView) (levels : SRLevels)
    (current_price : ℚ) : Bool :=
  match levels.support with
  | [] => false
  | nearest_support :: _ =>
    decide ((current_price - nearest_support) / current_price < 2 / 100) &&
      (tech.rsi_oversold || tech.macd_bullish)

/-- Open-position check of the day loop (backtest_engine.py lines 81-126):
iterate over a snapshot of `positions`, closing at the stop-loss or target
with slippage and commission; returns (capital, kept positions, trades).
The source adds `shares * exit_price + pnl` to the capital on both exits. -/
def process_positions (current_date : Nat) (current_price : ℚ) :
    List BTPosition → ℚ → List BTPosition → List BTTrade →
    ℚ × List BTPosition × List BTTrade
  | [], capital, kept, trades => (capital, kept, trades)
  | p :: rest, capital, kept, trades =>
    if current_price ≤ p.stop_loss then
      let exit_price := p.stop_loss * (1 - backtest_slippage)
      let pnl0 := (exit_price - p.entry_price) * p.shares
      let pnl := pnl0 - p.shares * exit_price * backtest_commission
      process_positions current_date current_price rest
        (capital + p.shares * exit_price + pnl) kept
        (trades ++ [⟨p.entry_date, current_date, p.entry_price, exit_price,
          p.shares, pnl, (exit_price - p.entry_price) / p.entry_price,
          .stop_loss⟩])
    else if p.target ≤ current_price then
      let exit_price := p.target * (1 - backtest_slippage)
      let pnl0 := (exit_price - p.entry_price) * p.shares
      let pnl := pnl0 - p.shares * exit_price * backtest_commission
      process_positions current_date current_price rest
        (capital + p.shares * exit_price + pnl) kept
        (trades ++ [⟨p.entry_date, current_date, p.entry_price, exit_price,
          p.shares, pnl, (exit_price - p.entry_price) / p.entry_price,
          .target⟩])
    else
      process_positions current_date current_price rest capital
        (kept ++ [p]) trades

/-- One iteration of the run_backtest day loop (backtest_engine.py lines
68-174) for day index `i`: close positions hit by the stop or target, open
a new position on a buy signal, then append one equity-curve entry of
`capital + Σ shares × current_price`. -/
def backtest_day (data : List Bar) (tech : List Bar → TechView)
    (st : BTState) (i : Nat) : BTState :=
  let current_data := data.take (i + 1)
  let current_price := (current_data.map Bar.close).getLastD 0
  let techv := tech current_data
  let levels := find_support_resistance_levels current_data 5 3
  let step := process_positions i current_price st.positions st.capital [] st.trades
  let capital1 := step.1
  let positions1 := step.2.1
  let trades1 := step.2.2
  let opened :=
    if positions1.length = 0 ∧ 0 < capital1 ∧
        check_buy_signal techv levels current_price then
      let strat := create_entry_strategy levels.support levels.resistance
        current_price techv.atr
      if (3 / 2 : ℚ) ≤ strat.risk_reward_ratio then
        let entry_price := current_price * (1 + backtest_slippage)
        let size := calculate_position_size (capital1 * (3 / 10)) entry_price
          strat.stop_loss none
        if 0 < size.shares then
          let cost := size.position_value * (1 + backtest_commission)
          if cost ≤ capital1 then
            (capital1 - cost,
              positions1 ++ [⟨i, entry_price, size.shares, strat.stop_loss,
                strat.target⟩])
          else (capital1, positions1)
        else (capital1, positions1)
      else (capital1, positions1)
    else (capital1, positions1)
  let capital2 := opened.1
  let positions2 := opened.2
  let total_value :=
    capital2 + (positions2.map (fun p => p.shares * current_price)).sum
  ⟨capital2, positions2, trades1, st.equity_curve ++ [total_value],
    st.dates ++ [i]⟩

/-- End-of-backtest close of remaining positions (backtest_engine.py lines
176-193): exit at the final price with slippage, no commission, and add
only `shares * exit_price` to the capital. -/
def close_positions (final_price : ℚ) (last_date : Nat) :
    List BTPosition → ℚ → List BTTrade → ℚ × List BTTrade
  | [], capital, trades => (capital, trades)
  | p :: rest, capital, trades =>
    let exit_price := final_price * (1 - backtest_slippage)
    let pnl := (exit_price - p.entry_price) * p.shares
    close_positions final_price last_date rest
      (capital + p.shares * exit_price)
      (trades ++ [⟨p.entry_date, last_date, p.entry_price, exit_price,
        p.shares, pnl, (exit_price - p.entry_price) / p.entry_price,
        .backtest_end⟩])

/-- Results dictionary of BacktestEngine._calculate_results.  The no-trade
branch of the source returns only total_trades, final_capital,
total_return_pct and an error string; its missing keys are `none` / 0 here
and `error` is true. -/
structure BacktestResults where
  total_trades : Nat
  final_capital : ℚ
  total_return : ℚ
  total_return_pct : ℚ
  winning_trades : Nat
  losing_trades : Nat
  win_rate : ℚ
  avg_win : ℚ
  avg_loss : ℚ
  largest_win : ℚ
  largest_loss : ℚ
  equity_curve : Option (List ℚ)
  dates : Option (List Nat)
  error : Bool
deriving DecidableEq

/-- BacktestEngine._calculate_results (backtest_engine.py lines 240-281). -/
def calculate_results (trades : List BTTrade) (equity_curve : List ℚ)
    (dates : List Nat) : BacktestResults :=
  if trades.isEmpty then
    ⟨0, backtest_initial_capital, 0, 0, 0, 0, 0, 0, 0, 0, 0, none, none, true⟩
  else
    let pnls := trades.map BTTrade.pnl
    let winning := pnls.filter (fun x => decide (0 < x))
    let losing := pnls.filter (fun x => decide (x < 0))
    let final_capital := equity_curve.getLastD 0
    ⟨trades.length, final_capital,
      final_capital - backtest_initial_capital,
      (final_capital - backtest_initial_capital) / backtest_initial_capital * 100,
      winning.length, losing.length,
      (winning.length : ℚ) / (trades.length : ℚ),
      if winning.isEmpty then 0 else listMean winning,
      if losing.isEmpty then 0 else listMean losing,
      pnls.foldl max (pnls.headD 0), pnls.foldl min (pnls.headD 0),
      some equity_curve, some dates, false⟩

/-- Start state of run_backtest (backtest_engine.py lines 60-65): the
equity curve is seeded with the initial capital before the day loop, with
dates[0] = the first index of the series. -/
def backtest_st0 : BTState :=
  ⟨backtest_initial_capital, [], [], [backtest_initial_capital], [0]⟩

/-- Day indices of the run_backtest loop: `range(200, len(data))`. -/
def backtest_days (data : List Bar) : List Nat :=
  (List.range (data.length - 200)).map (fun k => 200 + k)

/-- State after the day loop of run_backtest. -/
def backtest_final_state (data : List Bar) (tech : List Bar → TechView) :
    BTState :=
  (backtest_days data).foldl (backtest_day data tech) backtest_st0

/-- BacktestEngine.run_backtest (backtest_engine.py lines 39-203) for the
support_resistance strategy, parameterised by the technical-analyzer oracle
`tech`: run the day loop from day 200, close remaining positions at the
final price, and assemble the results. -/
def run_backtest (data : List Bar) (tech : List Bar → TechView) :
    BacktestResults :=
  let stN := backtest_final_state data tech
  let final_price := (data.map Bar.close).getLastD 0
  let closed := close_positions final_price (data.length - 1) stN.positions
    stN.capital stN.trades
  calculate_results closed.2 stN.equity_curve stN.dates

/-! ## Theorems -/

/-- C1: for every capital > 0 and a nonnegative effective risk percentage,
calculate_position_size with entry > stop returns a non-error result whose
shares reconstruct the risk amount exactly (shares × (entry − stop) =
capital × riskPct), with nonnegative shares and position value =
shares × entry; with stop ≥ entry it returns zero shares, zero position
value and the error tag.  Totality of the Lean function embodies the
absence of exceptions. -/
theorem C1_calculate_position_size_spec (capital entry_price stop_loss : ℚ)
    (risk_pct : Option ℚ) (hcap : 0 < capital)
    (hrp : 0 ≤ effectiveRiskPct risk_pct) :
    (stop_loss < entry_price →
      (calculate_position_size capital entry_price stop_loss risk_pct).error
          = false ∧
      (calculate_position_size capital entry_price stop_loss risk_pct).shares
          * (entry_price - stop_loss) =
        capital * effectiveRiskPct risk_pct ∧
      0 ≤ (calculate_position_size capital entry_price stop_loss
          risk_pct).shares ∧
      (calculate_position_size capital entry_price stop_loss
          risk_pct).position_value =
        (calculate_position_size capital entry_price stop_loss
          risk_pct).shares * entry_price) ∧
    (entry_price ≤ stop_loss →
      (calculate_position_size capital entry_price stop_loss risk_pct).shares
          = 0 ∧
      (calculate_position_size capital entry_price stop_loss
          risk_pct).position_value = 0 ∧
      (calculate_position_size capital entry_price stop_loss risk_pct).error
          = true) := by
  simp only [calculate_position_size]
  constructor
  · intro h
    have hd : ¬ (entry_price - stop_loss ≤ 0) := by linarith
    simp only [if_neg hd]
    refine ⟨by simp, ?_, ?_, by simp⟩
    · exact div_mul_cancel₀ _ (by linarith)
    · exact div_nonneg (mul_nonneg hcap.le hrp) (by linarith)
  · intro h
    have hd : entry_price - stop_loss ≤ 0 := by linarith
    simp only [if_pos hd]
    exact ⟨by simp, by simp, by simp⟩

/-- Witness for C1 at capital 1000, entry 10, stop 8 and the default risk
percentage 2%: the risk amount 20 is reconstructed exactly. -/
theorem C1_calculate_position_size_spec_witness :
    (0 : ℚ) < 1000 ∧ 0 ≤ effectiveRiskPct none ∧ (8 : ℚ) < 10 ∧
      (calculate_position_size 1000 10 8 none).shares * (10 - 8) =
        1000 * effectiveRiskPct none :=
  ⟨by norm_num, by with_unfolding_all decide, by norm_num,
    ((C1_calculate_position_size_spec 1000 10 8 none (by norm_num)
      (by with_unfolding_all decide)).1 (by norm_num)).2.1⟩

/-- C2: kelly_criterion returns 0 for win rates outside (0,1), non-positive
averages or a non-positive Kelly value (in particular at (0.5, 1, 1));
otherwise it returns the Kelly value scaled by the configured fraction 1/2
and capped at 25%, and its result always lies in [0, 1/4].  Totality of the
Lean function embodies the absence of exceptions. -/
theorem C2_kelly_criterion_spec (win_rate avg_win avg_loss : ℚ) :
    ((win_rate ≤ 0 ∨ 1 ≤ win_rate ∨ avg_win ≤ 0 ∨ avg_loss ≤ 0) →
      kelly_criterion win_rate avg_win avg_loss = 0) ∧
    (0 < win_rate → win_rate < 1 → 0 < avg_win → 0 < avg_loss →
      (win_rate * (avg_win / avg_loss) - (1 - win_rate)) /
          (avg_win / avg_loss) ≤ 0 →
      kelly_criterion win_rate avg_win avg_loss = 0) ∧
    (0 < win_rate → win_rate < 1 → 0 < avg_win → 0 < avg_loss →
      0 < (win_rate * (avg_win / avg_loss) - (1 - win_rate)) /
          (avg_win / avg_loss) →
      kelly_criterion win_rate avg_win avg_loss =
        min ((win_rate * (avg_win / avg_loss) - (1 - win_rate)) /
          (avg_win / avg_loss) * (1 / 2)) (25 / 100)) ∧
    kelly_criterion (1 / 2) 1 1 = 0 ∧
    0 ≤ kelly_criterion win_rate avg_win avg_loss ∧
    kelly_criterion win_rate avg_win avg_loss ≤ 25 / 100 := by
  refine ⟨?_, ?_, ?_, ?_, ?_, ?_⟩
  · intro h
    simp only [kelly_criterion]
    split_ifs with h1 h2 h3
    · rfl
    · rfl
    · rfl
    · exfalso
      push_neg at h1 h2
      rcases h with h | h | h | h <;> linarith [h1.1, h1.2, h2.1, h2.2]
  · intro h1 h2 h3 h4 h5
    simp only [kelly_criterion]
    rw [if_neg (by push_neg; constructor <;> linarith),
      if_neg (by push_neg; constructor <;> linarith), if_pos h5]
  · intro h1 h2 h3 h4 h5
    simp only [kelly_criterion, kelly_fraction]
    rw [if_neg (by push_neg; constructor <;> linarith),
      if_neg (by push_neg; constructor <;> linarith),
      if_neg (by linarith)]
  · with_unfolding_all decide
  · simp only [kelly_criterion, kelly_fraction]
    split_ifs with h1 h2 h3
    · exact le_refl 0
    · exact le_refl 0
    · exact le_refl 0
    · push_neg at h3
      exact le_min (by linarith) (by norm_num)
  · simp only [kelly_criterion, kelly_fraction]
    split_ifs with h1 h2 h3
    · norm_num
    · norm_num
    · norm_num
    · exact min_le_right _ _

/-- Witness for C2 at the break-even input (0.5, 1, 1): valid win rate and
averages, Kelly value 0, result 0. -/
theorem C2_kelly_criterion_spec_witness :
    (0 : ℚ) < 1 / 2 ∧ (1 / 2 : ℚ) < 1 ∧ (0 : ℚ) < 1 ∧
      ((1 / 2 : ℚ) * ((1 : ℚ) / 1) - (1 - 1 / 2)) / ((1 : ℚ) / 1) ≤ 0 ∧
      kelly_criterion (1 / 2) 1 1 = 0 :=
  ⟨by norm_num, by norm_num, by norm_num, by norm_num,
    (C2_kelly_criterion_spec (1 / 2) 1 1).2.1 (by norm_num) (by norm_num)
      (by norm_num) (by norm_num) (by norm_num)⟩

/-- Helper: filtering with a stronger predicate keeps at most as many
elements. -/
theorem length_filter_mono {α : Type} (l : List α) (p q : α → Bool)
    (h : ∀ x ∈ l, q x = true → p x = true) :
    (l.filter q).length ≤ (l.filter p).length := by
  induction l with
  | nil => simp
  | cons a t ih =>
    have ht : ∀ x ∈ t, q x = true → p x = true :=
      fun x hx => h x (List.mem_cons_of_mem a hx)
    simp only [List.filter_cons]
    cases hq : q a with
    | true =>
      rw [h a (List.mem_cons_self a t) hq]
      simpa using ih ht
    | false =>
      cases hp : p a with
      | true => simp only [List.length_cons]; exact le_trans (ih ht) (Nat.le_succ _)
      | false => exact ih ht

/-- C3: for a fixed nonempty path matrix, calculate_target_probability is
non-increasing in the target price and always lies in [0, 1]. -/
theorem C3_calculate_target_probability_spec (price_paths : List (List ℚ))
    (t1 t2 : ℚ) (hne : price_paths ≠ []) (h12 : t1 ≤ t2) :
    calculate_target_probability price_paths t2 ≤
        calculate_target_probability price_paths t1 ∧
    0 ≤ calculate_target_probability price_paths t2 ∧
    calculate_target_probability price_paths t2 ≤ 1 := by
  simp only [calculate_target_probability]
  have hlen : (0 : ℚ) < ((price_paths.map (fun p => p.getLastD 0)).length : ℚ) := by
    rw [List.length_map]
    exact_mod_cast List.length_pos.mpr hne
  refine ⟨?_, ?_, ?_⟩
  · apply div_le_div_of_nonneg_right ?_ hlen.le
    exact_mod_cast length_filter_mono _ _ _
      (fun x _ hx => decide_eq_true (le_trans h12 (of_decide_eq_true hx)))
  · exact div_nonneg (by positivity) hlen.le
  · rw [div_le_one hlen]
    exact_mod_cast List.length_filter_le _ _

/-- Witness for C3 on a concrete 2 × 2 path matrix with targets 1 ≤ 2. -/
theorem C3_calculate_target_probability_spec_witness :
    ([[1, 2], [1, 1]] : List (List ℚ)) ≠ [] ∧ (1 : ℚ) ≤ 2 ∧
      (calculate_target_probability [[1, 2], [1, 1]] 2 ≤
          calculate_target_probability [[1, 2], [1, 1]] 1 ∧
        0 ≤ calculate_target_probability [[1, 2], [1, 1]] 2 ∧
        calculate_target_probability [[1, 2], [1, 1]] 2 ≤ 1) :=
  ⟨by simp, by norm_num,
    C3_calculate_target_probability_spec [[1, 2], [1, 1]] 1 2
      (by simp) (by norm_num)⟩

/-- Helper: a nonempty list of strictly negative rationals has a strictly
negative sum. -/
theorem sum_neg_of_mem_neg (l : List ℚ) (h : ∀ x ∈ l, x < 0) (hne : l ≠ []) :
    l.sum < 0 := by
  induction l with
  | nil => exact absurd rfl hne
  | cons a t ih =>
    have ha : a < 0 := h a (List.mem_cons_self a t)
    have ht : ∀ x ∈ t, x < 0 := fun x hx => h x (List.mem_cons_of_mem a hx)
    rw [List.sum_cons]
    cases t with
    | nil => simpa using ha
    | cons b u =>
      have := ih ht (List.cons_ne_nil b u)
      linarith

/-- Helper: the gross loss vanishes exactly when no trade has a negative
P&L. -/
theorem gross_loss_eq_zero_iff (trades : List PMTrade) :
    gross_loss trades = 0 ↔ ∀ t ∈ trades, 0 ≤ t.pnl := by
  unfold gross_loss
  rw [abs_eq_zero]
  constructor
  · intro hsum t ht
    by_contra hneg
    push_neg at hneg
    have hmem : t.pnl ∈ (trades.map PMTrade.pnl).filter (fun x => x < 0) := by
      rw [List.mem_filter]
      exact ⟨List.mem_map_of_mem PMTrade.pnl ht, by simpa using hneg⟩
    have hle : ((trades.map PMTrade.pnl).filter (fun x => x < 0)).sum < 0 := by
      apply sum_neg_of_mem_neg
      · intro x hx
        have := (List.mem_filter.mp hx).2
        simpa using this
      · exact List.ne_nil_of_mem hmem
    linarith [hle, hsum.le, hsum.ge]
  · intro hpos
    have : (trades.map PMTrade.pnl).filter (fun x => x < 0) = [] := by
      rw [List.filter_eq_nil_iff]
      intro x hx
      obtain ⟨t, ht, rfl⟩ := List.mem_map.mp hx
      simpa using hpos t ht
    rw [this, List.sum_nil]

/-- C5 counterexample: on the empty trade list, calculate_profit_factor hits
the pandas KeyError (no `pnl` column in an empty DataFrame) instead of
returning a value, refuting the no-runtime-fault clause of the claim. -/
theorem C5_calculate_profit_factor_counterexample :
    calculate_profit_factor [] = .error .pnl_missing := rfl

/-- C5 (amended): for every NONEMPTY trade list, calculate_profit_factor
returns a value and never faults: +∞ exactly when there is no losing trade,
and gross profit / |gross loss| otherwise; the empty list instead raises a
pandas KeyError. -/
theorem C5_calculate_profit_factor_amended (trades : List PMTrade)
    (hne : trades ≠ []) :
    (∃ pf : ProfitFactor, calculate_profit_factor trades = .ok pf) ∧
    (calculate_profit_factor trades = .ok ⊤ ↔ ∀ t ∈ trades, 0 ≤ t.pnl) ∧
    ((∃ t ∈ trades, t.pnl < 0) →
      calculate_profit_factor trades =
        .ok ((gross_profit trades / gross_loss trades : ℚ) : ProfitFactor)) := by
  have hcond : ¬ (trades.isEmpty = true) := by
    cases trades with
    | nil => exact absurd rfl hne
    | cons a t => simp
  refine ⟨?_, ?_, ?_⟩
  · simp only [calculate_profit_factor]
    rw [if_neg hcond]
    split_ifs <;> exact ⟨_, rfl⟩
  · simp only [calculate_profit_factor]
    rw [if_neg hcond]
    split_ifs with hgl
    · exact ⟨fun _ => (gross_loss_eq_zero_iff trades).mp hgl, fun _ => rfl⟩
    · constructor
      · intro hok
        exact absurd (Except.ok.inj hok) WithTop.coe_ne_top
      · intro hpos
        exact absurd ((gross_loss_eq_zero_iff trades).mpr hpos) hgl
  · intro ⟨t, ht, htneg⟩
    have hgl : gross_loss trades ≠ 0 := by
      intro h0
      have := (gross_loss_eq_zero_iff trades).mp h0 t ht
      linarith
    simp only [calculate_profit_factor]
    rw [if_neg hcond, if_neg hgl]

/-- Witness for C5 (amended) on the one-trade list with P&L −1: the result
is the finite value gross profit / |gross loss| = 0 / 1. -/
theorem C5_calculate_profit_factor_amended_witness :
    ([⟨-1⟩] : List PMTrade) ≠ [] ∧
      (∃ pf : ProfitFactor, calculate_profit_factor [⟨-1⟩] = .ok pf) :=
  ⟨by simp,
    (C5_calculate_profit_factor_amended [⟨-1⟩] (by simp)).1⟩

/-- C7: a ratio of exactly 80 classifies as normal (strict threshold), and
ratio_trading_signal recommends sell-gold/buy-silver exactly when ratio > 80
and z > 1 (confidence high iff z > 2, medium otherwise), buy-gold/sell-silver
exactly when ratio < 60 and z < −1 (high iff z < −2), and no action with low
confidence otherwise. -/
theorem C7_ratio_signal_spec :
    analyze_ratio_signal 80 = .normal ∧
    ∀ ratio z_score : ℚ,
      (((ratio_trading_signal ratio z_score).gold_action = .sat ∧
          (ratio_trading_signal ratio z_score).silver_action = .al) ↔
        (80 < ratio ∧ 1 < z_score)) ∧
      (((ratio_trading_signal ratio z_score).gold_action = .al ∧
          (ratio_trading_signal ratio z_score).silver_action = .sat) ↔
        (ratio < 60 ∧ z_score < -1)) ∧
      (((ratio_trading_signal ratio z_score).gold_action = .bekle ∧
          (ratio_trading_signal ratio z_score).silver_action = .bekle ∧
          (ratio_trading_signal ratio z_score).confidence = .dusuk) ↔
        (¬ (80 < ratio ∧ 1 < z_score) ∧ ¬ (ratio < 60 ∧ z_score < -1))) ∧
      (80 < ratio → 1 < z_score →
        (ratio_trading_signal ratio z_score).confidence =
          (if 2 < z_score then .yuksek else .orta)) ∧
      (ratio < 60 → z_score < -1 →
        (ratio_trading_signal ratio z_score).confidence =
          (if z_score < -2 then .yuksek else .orta)) := by
  constructor
  · with_unfolding_all decide
  · intro ratio z_score
    simp only [ratio_trading_signal, gsr_high_threshold, gsr_low_threshold]
    split_ifs with h1 h2 <;>
      refine ⟨?_, ?_, ?_, ?_, ?_⟩ <;>
      simp_all <;>
      first
      | (intro h; exfalso; rcases h1 with ⟨ha, hb⟩; linarith)
      | (intro ha hb; exfalso; rcases h2 with ⟨hc, hd⟩; linarith)
      | (intro ha hb; exact absurd ⟨ha, hb⟩ h1)
      | (intro ha hb; exact absurd ⟨ha, hb⟩ h2)
      | (rintro ⟨ha, hb⟩; exact absurd ⟨ha, hb⟩ h1)

/-- Witness for C7 at ratio 81, z-score 3/2: the sell-gold/buy-silver pair
trade with medium confidence. -/
theorem C7_ratio_signal_spec_witness :
    (80 : ℚ) < 81 ∧ (1 : ℚ) < 3 / 2 ∧
      (ratio_trading_signal 81 (3 / 2)).confidence =
        (if (2 : ℚ) < 3 / 2 then .yuksek else .orta) :=
  ⟨by norm_num, by norm_num,
    ((C7_ratio_signal_spec.2 81 (3 / 2)).2.2.2.1 (by norm_num) (by norm_num))⟩

/-- C9: the lower-cased text "gümüş tam analiz monte carlo" parses to the
full_analysis type (full-analysis phrasing has priority over the Monte Carlo
keywords also present) with asset silver; a command containing no analysis
keyword defaults to full_analysis, and one containing no asset keyword
defaults to silver. -/
theorem C9_parse_priority_spec :
    extract_analysis_type (String.toList "gümüş tam analiz monte carlo") =
        .full_analysis ∧
    extract_asset (String.toList "gümüş tam analiz monte carlo") = .silver ∧
    (∀ command : List Char,
      (∀ k ∈ all_analysis_keywords, containsSub k command = false) →
      extract_analysis_type command = .full_analysis) ∧
    (∀ command : List Char,
      (∀ k ∈ silver_keywords ++ gold_keywords, containsSub k command = false) →
      extract_asset command = .silver) := by
  have key : ∀ (command : List Char) (ks : List (List Char)),
      (∀ k ∈ ks, containsSub k command = false) →
      ks.any (fun k => containsSub k command) = false := by
    intro command ks hks
    rw [List.any_eq_false]
    intro k hk
    simp [hks k hk]
  refine ⟨?_, ?_, ?_, ?_⟩
  · with_unfolding_all decide
  · with_unfolding_all decide
  · intro command h
    have h1 := key command full_analysis_keywords
      (fun k hk => h k (by simp [all_analysis_keywords, hk]))
    have h2 := key command monte_carlo_keywords
      (fun k hk => h k (by simp [all_analysis_keywords, hk]))
    have h3 := key command technical_keywords
      (fun k hk => h k (by simp [all_analysis_keywords, hk]))
    have h4 := key command support_resistance_keywords
      (fun k hk => h k (by simp [all_analysis_keywords, hk]))
    have h5 := key command strategy_keywords
      (fun k hk => h k (by simp [all_analysis_keywords, hk]))
    have h6 := key command backtest_keywords
      (fun k hk => h k (by simp [all_analysis_keywords, hk]))
    simp [extract_analysis_type, h1, h2, h3, h4, h5, h6]
  · intro command h
    have hs := key command silver_keywords
      (fun k hk => h k (by simp [hk]))
    have hg := key command gold_keywords
      (fun k hk => h k (by simp [hk]))
    simp [extract_asset, hs, hg]

/-- Witness for C9 defaults on the keyword-free command "merhaba". -/
theorem C9_parse_priority_spec_witness :
    (∀ k ∈ all_analysis_keywords,
      containsSub k (String.toList "merhaba") = false) ∧
    extract_analysis_type (String.toList "merhaba") = .full_analysis ∧
    (∀ k ∈ silver_keywords ++ gold_keywords,
      containsSub k (String.toList "merhaba") = false) ∧
    extract_asset (String.toList "merhaba") = .silver := by
  have h1 : ∀ k ∈ all_analysis_keywords,
      containsSub k (String.toList "merhaba") = false := by
    with_unfolding_all decide
  have h2 : ∀ k ∈ silver_keywords ++ gold_keywords,
      containsSub k (String.toList "merhaba") = false := by
    with_unfolding_all decide
  exact ⟨h1, C9_parse_priority_spec.2.2.1 _ h1, h2,
    C9_parse_priority_spec.2.2.2 _ h2⟩

/-- C10 counterexample: with entry 100, current price 30, target price 0
(below entry) and 10 total shares, the 75% and 100% exits fire without the
50% exit, and the remaining shares are 3 = 30% of the total, not one of
100%, 70%, 40% or 0% — refuting the cumulative-exit claim for arbitrary
inputs. -/
theorem C10_partial_exit_strategy_counterexample :
    (0 : ℚ) ≤ 10 ∧
    (partial_exit_strategy 100 30 0 10).exits.map PartialExit.level =
      [75, 100] ∧
    (partial_exit_strategy 100 30 0 10).remaining_shares = 3 ∧
    ¬ ((partial_exit_strategy 100 30 0 10).remaining_shares = 10 ∨
      (partial_exit_strategy 100 30 0 10).remaining_shares = 10 * (70 / 100) ∨
      (partial_exit_strategy 100 30 0 10).remaining_shares = 10 * (40 / 100) ∨
      (partial_exit_strategy 100 30 0 10).remaining_shares = 0) := by
  with_unfolding_all decide

/-- C10 (amended): provided the target price is at or above the entry price,
every flagged exit of partial_exit_strategy is exactly 30%, 30% or 40% of
the total shares (for the 50%, 75% and 100% levels), exits fire
cumulatively, the remaining shares equal the total minus the flagged exit
shares and are exactly 100%, 70%, 40% or 0% of the total, never negative
(for nonnegative total shares). -/
theorem C10_partial_exit_strategy_amended
    (entry_price current_price target_price total_shares : ℚ)
    (r : ExitStrategyResult) (hts : 0 ≤ total_shares)
    (hle : entry_price ≤ target_price)
    (hr : r = partial_exit_strategy entry_price current_price target_price
      total_shares) :
    (∀ e ∈ r.exits,
      (e.level = 50 → e.shares = total_shares * (30 / 100)) ∧
      (e.level = 75 → e.shares = total_shares * (30 / 100)) ∧
      (e.level = 100 → e.shares = total_shares * (40 / 100))) ∧
    (75 ∈ r.exits.map PartialExit.level → 50 ∈ r.exits.map PartialExit.level) ∧
    (100 ∈ r.exits.map PartialExit.level → 75 ∈ r.exits.map PartialExit.level) ∧
    r.remaining_shares = total_shares - (r.exits.map PartialExit.shares).sum ∧
    (r.remaining_shares = total_shares ∨
      r.remaining_shares = total_shares * (70 / 100) ∨
      r.remaining_shares = total_shares * (40 / 100) ∨
      r.remaining_shares = 0) ∧
    0 ≤ r.remaining_shares := by
  subst hr
  simp only [partial_exit_strategy]
  rcases le_or_lt (entry_price + (target_price - entry_price) * (5 / 10))
    current_price with h1 | h1
  · rcases le_or_lt (entry_price + (target_price - entry_price) * (75 / 100))
      current_price with h2 | h2
    · rcases le_or_lt target_price current_price with h3 | h3
      · simp only [if_pos h1, if_pos h2, if_pos h3]
        refine ⟨?_, by simp, by simp, by simp, ?_, ?_⟩
        · intro e he
          simp only [List.cons_append, List.nil_append, List.mem_cons,
            List.not_mem_nil, or_false] at he
          rcases he with rfl | rfl | rfl <;>
            refine ⟨?_, ?_, ?_⟩ <;> intro hl <;> simp_all
        · right; right; right; simp; ring
        · simp; nlinarith
      · have h3' : ¬ target_price ≤ current_price := not_le.mpr h3
        simp only [if_pos h1, if_pos h2, if_neg h3']
        refine ⟨?_, by simp, by simp, by simp, ?_, ?_⟩
        · intro e he
          simp only [List.cons_append, List.nil_append, List.append_nil,
            List.mem_cons, List.not_mem_nil, or_false] at he
          rcases he with rfl | rfl <;>
            refine ⟨?_, ?_, ?_⟩ <;> intro hl <;> simp_all
        · right; right; left; simp; ring
        · simp; nlinarith
    · have h2' : ¬ (entry_price + (target_price - entry_price) * (75 / 100))
          ≤ current_price := not_le.mpr h2
      have h3' : ¬ target_price ≤ current_price := by
        intro h
        have : entry_price + (target_price - entry_price) * (75 / 100)
            ≤ target_price := by linarith
        linarith
      simp only [if_pos h1, if_neg h2', if_neg h3']
      refine ⟨?_, by simp, by simp, by simp, ?_, ?_⟩
      · intro e he
        simp only [List.append_nil, List.mem_singleton] at he
        subst he
        refine ⟨?_, ?_, ?_⟩ <;> intro hl <;> simp_all
      · right; left; simp; ring
      · simp; nlinarith
  · have h1' : ¬ (entry_price + (target_price - entry_price) * (5 / 10))
        ≤ current_price := not_le.mpr h1
    have h2' : ¬ (entry_price + (target_price - entry_price) * (75 / 100))
        ≤ current_price := by
      intro h
      have : entry_price + (target_price - entry_price) * (5 / 10) ≤
          entry_price + (target_price - entry_price) * (75 / 100) := by
        linarith
      linarith
    have h3' : ¬ target_price ≤ current_price := by
      intro h
      have : entry_price + (target_price - entry_price) * (5 / 10) ≤
          target_price := by linarith
      linarith
    simp only [if_neg h1', if_neg h2', if_neg h3']
    refine ⟨by simp, by simp, by simp, by simp, ?_, ?_⟩
    · left; simp
    · simp
      exact hts

/-- Witness for C10 (amended) at entry 100, current 150, target 200 and 10
shares: only the 50% exit fires and 7 shares remain. -/
theorem C10_partial_exit_strategy_amended_witness :
    (0 : ℚ) ≤ 10 ∧ (100 : ℚ) ≤ 200 ∧
      (partial_exit_strategy 100 150 200 10).remaining_shares =
        10 - ((partial_exit_strategy 100 150 200 10).exits.map
          PartialExit.shares).sum :=
  ⟨by norm_num, by norm_num,
    (C10_partial_exit_strategy_amended 100 150 200 10 _ (by norm_num)
      (by norm_num) rfl).2.2.2.1⟩

/-- Helper: membership in the support backfill only adds values strictly
below the current price. -/
theorem mem_of_mem_backfill_supports (cp : ℚ) (n : Nat) :
    ∀ (ls acc : List ℚ) (x : ℚ),
      x ∈ backfill_supports cp n ls acc → x ∈ acc ∨ x < cp := by
  intro ls
  induction ls with
  | nil => exact fun acc x hx => Or.inl hx
  | cons low rest ih =>
    intro acc x hx
    simp only [backfill_supports] at hx
    by_cases hcnd : low < cp ∧ low ∉ acc
    · rw [if_pos hcnd] at hx
      split_ifs at hx with hstop
      · rcases List.mem_append.mp hx with h | h
        · exact Or.inl h
        · rw [List.mem_singleton] at h
          subst h
          exact Or.inr hcnd.1
      · rcases ih _ x hx with h | h
        · rcases List.mem_append.mp h with h | h
          · exact Or.inl h
          · rw [List.mem_singleton] at h
            subst h
            exact Or.inr hcnd.1
        · exact Or.inr h
    · rw [if_neg hcnd] at hx
      split_ifs at hx with hstop
      · exact Or.inl hx
      · rcases ih _ x hx with h | h
        · exact Or.inl h
        · exact Or.inr h

/-- Helper: membership in the resistance backfill only adds values strictly
above the current price. -/
theorem mem_of_mem_backfill_resistances (cp : ℚ) (n : Nat) :
    ∀ (ls acc : List ℚ) (x : ℚ),
      x ∈ backfill_resistances cp n ls acc → x ∈ acc ∨ cp < x := by
  intro ls
  induction ls with
  | nil => exact fun acc x hx => Or.inl hx
  | cons high rest ih =>
    intro acc x hx
    simp only [backfill_resistances] at hx
    by_cases hcnd : cp < high ∧ high ∉ acc
    · rw [if_pos hcnd] at hx
      split_ifs at hx with hstop
      · rcases List.mem_append.mp hx with h | h
        · exact Or.inl h
        · rw [List.mem_singleton] at h
          subst h
          exact Or.inr hcnd.1
      · rcases ih _ x hx with h | h
        · rcases List.mem_append.mp h with h | h
          · exact Or.inl h
          · rw [List.mem_singleton] at h
            subst h
            exact Or.inr hcnd.1
        · exact Or.inr h
    · rw [if_neg hcnd] at hx
      split_ifs at hx with hstop
      · exact Or.inl hx
      · rcases ih _ x hx with h | h
        · exact Or.inl h
        · exact Or.inr h

/-- Helper: the final sort-and-truncate step of the support side keeps only
values below the current price, sorted descending, at most n of them. -/
theorem support_chain_spec (cp : ℚ) (n : Nat) (base recents : List ℚ)
    (hbase : ∀ x ∈ base, x < cp) :
    (∀ x ∈ (sortDesc (if base.length < n
        then backfill_supports cp n recents base else base)).take n, x < cp) ∧
    List.Sorted (fun a b : ℚ => b ≤ a)
      ((sortDesc (if base.length < n
        then backfill_supports cp n recents base else base)).take n) ∧
    ((sortDesc (if base.length < n
        then backfill_supports cp n recents base else base)).take n).length
      ≤ n := by
  refine ⟨?_, ?_, List.length_take_le n _⟩
  · intro x hx
    have hx2 : x ∈ sortDesc (if base.length < n
        then backfill_supports cp n recents base else base) :=
      (List.take_sublist n _).mem hx
    rw [sortDesc, List.mem_insertionSort] at hx2
    split_ifs at hx2 with hlen
    · rcases mem_of_mem_backfill_supports cp n recents base x hx2 with h | h
      · exact hbase x h
      · exact h
    · exact hbase x hx2
  · exact (List.sorted_insertionSort _ _).sublist (List.take_sublist n _)

/-- Helper: the final sort-and-truncate step of the resistance side keeps
only values above the current price, sorted ascending, at most n of them. -/
theorem resistance_chain_spec (cp : ℚ) (n : Nat) (base recents : List ℚ)
    (hbase : ∀ x ∈ base, cp < x) :
    (∀ x ∈ (sortAsc (if base.length < n
        then backfill_resistances cp n recents base else base)).take n,
      cp < x) ∧
    List.Sorted (fun a b : ℚ => a ≤ b)
      ((sortAsc (if base.length < n
        then backfill_resistances cp n recents base else base)).take n) ∧
    ((sortAsc (if base.length < n
        then backfill_resistances cp n recents base else base)).take n).length
      ≤ n := by
  refine ⟨?_, ?_, List.length_take_le n _⟩
  · intro x hx
    have hx2 : x ∈ sortAsc (if base.length < n
        then backfill_resistances cp n recents base else base) :=
      (List.take_sublist n _).mem hx
    rw [sortAsc, List.mem_insertionSort] at hx2
    split_ifs at hx2 with hlen
    · rcases mem_of_mem_backfill_resistances cp n recents base x hx2 with h | h
      · exact hbase x h
      · exact h
    · exact hbase x hx2
  · exact (List.sorted_insertionSort _ _).sublist (List.take_sublist n _)

/-- C6: for every nonempty price series (including the backfill path),
every returned support level is strictly below the current price with the
list sorted descending and at most num_levels long; every resistance level
is strictly above the current price, sorted ascending, at most num_levels
long. -/
theorem C6_find_support_resistance_levels_spec (data : List Bar)
    (order num_levels : Nat) (hne : data ≠ []) :
    (∀ s ∈ (find_support_resistance_levels data order num_levels).support,
      s < (find_support_resistance_levels data order num_levels).current_price) ∧
    List.Sorted (fun a b : ℚ => b ≤ a)
      (find_support_resistance_levels data order num_levels).support ∧
    (find_support_resistance_levels data order num_levels).support.length
      ≤ num_levels ∧
    (∀ r ∈ (find_support_resistance_levels data order num_levels).resistance,
      (find_support_resistance_levels data order num_levels).current_price
        < r) ∧
    List.Sorted (fun a b : ℚ => a ≤ b)
      (find_support_resistance_levels data order num_levels).resistance ∧
    (find_support_resistance_levels data order num_levels).resistance.length
      ≤ num_levels := by
  have hbs : ∀ x ∈ (sortDesc ((cluster_levels
      ((argrel_min_indices (data.map Bar.low) order).map
        (fun i => (data.map Bar.low).getD i 0)) (2 / 100)).filter
      (fun s => decide (s < (data.map Bar.close).getLastD 0)))).take
        num_levels,
      x < (data.map Bar.close).getLastD 0 := by
    intro x hx
    have hx2 := (List.take_sublist num_levels _).mem hx
    rw [sortDesc, List.mem_insertionSort] at hx2
    exact of_decide_eq_true (List.mem_filter.mp hx2).2
  have hbr : ∀ x ∈ (sortAsc ((cluster_levels
      ((argrel_max_indices (data.map Bar.high) order).map
        (fun i => (data.map Bar.high).getD i 0)) (2 / 100)).filter
      (fun r => decide ((data.map Bar.close).getLastD 0 < r)))).take
        num_levels,
      (data.map Bar.close).getLastD 0 < x := by
    intro x hx
    have hx2 := (List.take_sublist num_levels _).mem hx
    rw [sortAsc, List.mem_insertionSort] at hx2
    exact of_decide_eq_true (List.mem_filter.mp hx2).2
  have hs := support_chain_spec ((data.map Bar.close).getLastD 0) num_levels
    _ ((sortAsc (lastN (data.map Bar.low) 252)).take num_levels) hbs
  have hr := resistance_chain_spec ((data.map Bar.close).getLastD 0)
    num_levels _ ((sortDesc (lastN (data.map Bar.high) 252)).take num_levels)
    hbr
  exact ⟨hs.1, hs.2.1, hs.2.2, hr.1, hr.2.1, hr.2.2⟩

/-- Witness for C6 on a one-bar price series. -/
theorem C6_find_support_resistance_levels_spec_witness :
    ([(⟨100, 100, 100⟩ : Bar)] ≠ []) ∧
      ((find_support_resistance_levels [⟨100, 100, 100⟩] 5 3).support.length
        ≤ 3) :=
  ⟨by simp,
    (C6_find_support_resistance_levels_spec [⟨100, 100, 100⟩] 5 3
      (by simp)).2.2.1⟩

/-- Helper: Python split always returns at least one piece. -/
theorem splitOnNl_ne_nil (s : List Char) : splitOnNl s ≠ [] := by
  induction s with
  | nil => simp [splitOnNl]
  | cons c cs ih =>
    simp only [splitOnNl]
    split_ifs with hc
    · simp
    · rcases hr : splitOnNl cs with _ | ⟨l, ls⟩
      · exact absurd hr ih
      · simp

/-- Helper: one-step unfolding of intercalateNl on a list with a nonempty
tail. -/
theorem intercalateNl_cons (l : List Char) (ls : List (List Char))
    (h : ls ≠ []) :
    intercalateNl (l :: ls) = l ++ '\n' :: intercalateNl ls := by
  cases ls with
  | nil => exact absurd rfl h
  | cons a t => rfl

/-- Helper: joining with newlines undoes splitting on newlines. -/
theorem intercalateNl_splitOnNl (s : List Char) :
    intercalateNl (splitOnNl s) = s := by
  induction s with
  | nil => rfl
  | cons c cs ih =>
    simp only [splitOnNl]
    split_ifs with hc
    · subst hc
      rw [intercalateNl_cons _ _ (splitOnNl_ne_nil cs), ih]
      rfl
    · rcases hr : splitOnNl cs with _ | ⟨l, ls⟩
      · exact absurd hr (splitOnNl_ne_nil cs)
      · show intercalateNl ((c :: l) :: ls) = c :: cs
        cases ls with
        | nil =>
          have hcs : l = cs := by
            rw [hr] at ih
            exact ih
          show c :: l = c :: cs
          rw [hcs]
        | cons l2 ls2 =>
          rw [intercalateNl_cons _ _ (by simp)]
          have hih : l ++ '\n' :: intercalateNl (l2 :: ls2) = cs := by
            rw [hr, intercalateNl_cons _ _ (by simp)] at ih
            exact ih
          rw [List.cons_append, hih]

/-- Helper: intercalateNl distributes over an append of nonempty piece
lists. -/
theorem intercalateNl_append (A B : List (List Char)) (hA : A ≠ [])
    (hB : B ≠ []) :
    intercalateNl (A ++ B) = intercalateNl A ++ '\n' :: intercalateNl B := by
  induction A with
  | nil => exact absurd rfl hA
  | cons a t ih =>
    cases t with
    | nil =>
      rw [List.singleton_append, intercalateNl_cons a B hB]
      rfl
    | cons b u =>
      rw [List.cons_append, intercalateNl_cons a ((b :: u) ++ B) (by simp),
        intercalateNl_cons a (b :: u) (by simp), ih (by simp)]
      simp

/-- Helper: unfolding equation for List.join on a cons. -/
theorem join_cons_eq {α : Type} (x : List α) (xs : List (List α)) :
    (x :: xs).join = x ++ xs.join := rfl

/-- Helper: joining the per-chunk joins of a partition equals joining the
concatenated partition. -/
theorem intercalateNl_map_parts (P : List (List (List Char)))
    (hP : ∀ p ∈ P, p ≠ []) :
    intercalateNl (P.map intercalateNl) = intercalateNl P.join := by
  induction P with
  | nil => rfl
  | cons p t ih =>
    cases t with
    | nil => simp [intercalateNl]
    | cons q u =>
      have hp : p ≠ [] := hP p (List.mem_cons_self _ _)
      have ht : ∀ x ∈ q :: u, x ≠ [] :=
        fun x hx => hP x (List.mem_cons_of_mem _ hx)
      have hq : q ≠ [] := ht q (List.mem_cons_self _ _)
      have hqu_join : (q :: u).join ≠ [] := by
        rw [join_cons_eq]
        intro habs
        exact hq (List.append_eq_nil.mp habs).1
      rw [List.map_cons, intercalateNl_cons _ _ (by simp), ih ht,
        join_cons_eq p (q :: u), intercalateNl_append p ((q :: u).join) hp
          hqu_join]

/-- Helper: one newline-joined nonempty piece list has length one less than
the sum of the piece lengths each counted with its newline. -/
theorem intercalateNl_length (A : List (List Char)) (hA : A ≠ []) :
    (intercalateNl A).length + 1 = (A.map (fun l => l.length + 1)).sum := by
  induction A with
  | nil => exact absurd rfl hA
  | cons a t ih =>
    cases t with
    | nil => simp [intercalateNl]
    | cons b u =>
      rw [intercalateNl_cons _ _ (by simp)]
      have := ih (by simp)
      simp only [List.map_cons, List.sum_cons, List.length_append,
        List.length_cons] at this ⊢
      omega

/-- Helper: unfolding equation of split_lines_go on the empty line list. -/
theorem split_lines_go_nil (ml : Nat) (chunks current : List (List Char))
    (cl : Nat) :
    split_lines_go ml [] chunks current cl =
      if current.isEmpty then chunks
      else chunks ++ [intercalateNl current] := rfl

/-- Helper: unfolding equation of split_lines_go on a cons. -/
theorem split_lines_go_cons (ml : Nat) (line : List Char)
    (rest chunks current : List (List Char)) (cl : Nat) :
    split_lines_go ml (line :: rest) chunks current cl =
      if ml < cl + (line.length + 1) then
        split_lines_go ml rest (chunks ++ [intercalateNl current]) [line]
          (line.length + 1)
      else
        split_lines_go ml rest chunks (current ++ [line])
          (cl + (line.length + 1)) := rfl

/-- Helper: split_lines_go emits the chunks so far followed by the joins of
a partition of the pending and remaining lines into nonempty groups. -/
theorem split_lines_go_parts (ml : Nat) :
    ∀ (lines chunks current : List (List Char)) (cl : Nat), current ≠ [] →
    ∃ P : List (List (List Char)),
      (∀ p ∈ P, p ≠ []) ∧ P.join = current ++ lines ∧
      split_lines_go ml lines chunks current cl =
        chunks ++ P.map intercalateNl := by
  intro lines
  induction lines with
  | nil =>
    intro chunks current cl hcur
    have hemp : current.isEmpty = false := by
      cases current with
      | nil => exact absurd rfl hcur
      | cons a t => rfl
    refine ⟨[current], ?_, by simp, ?_⟩
    · intro p hp
      rw [List.mem_singleton] at hp
      subst hp
      exact hcur
    · rw [split_lines_go_nil, hemp]
      simp
  | cons line rest ih =>
    intro chunks current cl hcur
    rw [split_lines_go_cons]
    split_ifs with hcond
    · obtain ⟨P, hPne, hPjoin, hPeq⟩ := ih (chunks ++ [intercalateNl current])
        [line] (line.length + 1) (by simp)
      refine ⟨current :: P, ?_, ?_, ?_⟩
      · intro p hp
        rcases List.mem_cons.mp hp with rfl | hp
        · exact hcur
        · exact hPne p hp
      · rw [join_cons_eq, hPjoin]
        simp
      · rw [hPeq]
        simp
    · obtain ⟨P, hPne, hPjoin, hPeq⟩ := ih chunks (current ++ [line])
        (cl + (line.length + 1)) (by simp)
      refine ⟨P, hPne, ?_, hPeq⟩
      rw [hPjoin]
      simp

/-- Helper: every chunk emitted by split_lines_go stays within the limit
when every line fits and the running length invariant holds. -/
theorem split_lines_go_len (ml : Nat) :
    ∀ (lines chunks current : List (List Char)) (cl : Nat),
    (∀ l ∈ lines, l.length + 1 ≤ ml) →
    cl = (current.map (fun l => l.length + 1)).sum →
    cl ≤ ml →
    (∀ c ∈ chunks, c.length ≤ ml) →
    current ≠ [] →
    ∀ c ∈ split_lines_go ml lines chunks current cl, c.length ≤ ml := by
  intro lines
  induction lines with
  | nil =>
    intro chunks current cl hfit hsum hle hchunks hcur c hc
    have hemp : current.isEmpty = false := by
      cases current with
      | nil => exact absurd rfl hcur
      | cons a t => rfl
    rw [split_lines_go_nil, hemp] at hc
    simp only [Bool.false_eq_true, if_false] at hc
    rcases List.mem_append.mp hc with h | h
    · exact hchunks c h
    · rw [List.mem_singleton] at h
      subst h
      have := intercalateNl_length current hcur
      omega
  | cons line rest ih =>
    intro chunks current cl hfit hsum hle hchunks hcur c hc
    have hlinefit : line.length + 1 ≤ ml := hfit line (List.mem_cons_self _ _)
    have hrestfit : ∀ l ∈ rest, l.length + 1 ≤ ml :=
      fun l hl => hfit l (List.mem_cons_of_mem _ hl)
    rw [split_lines_go_cons] at hc
    split_ifs at hc with hcond
    · refine ih (chunks ++ [intercalateNl current]) [line] (line.length + 1)
        hrestfit (by simp) hlinefit ?_ (by simp) c hc
      intro d hd
      rcases List.mem_append.mp hd with h | h
      · exact hchunks d h
      · rw [List.mem_singleton] at h
        subst h
        have := intercalateNl_length current hcur
        omega
    · refine ih chunks (current ++ [line]) (cl + (line.length + 1))
        hrestfit ?_ (by omega) hchunks (by simp) c hc
      rw [List.map_append, List.sum_append, hsum]
      simp

/-- C8: a message longer than the limit whose lines each fit within the limit
splits into chunks each within the limit, the chunks are newline-joins of a
partition of the original lines into nonempty groups (splits only at line
boundaries), and joining the chunks with newlines reproduces the message
exactly.  The Telegram instance is max_length = 4096. -/
theorem C8_split_long_message_spec (max_length : Nat) (message : List Char)
    (hlong : max_length < message.length)
    (hfit : ∀ l ∈ splitOnNl message, l.length + 1 ≤ max_length) :
    (∀ c ∈ split_long_message message max_length, c.length ≤ max_length) ∧
    intercalateNl (split_long_message message max_length) = message ∧
    ∃ P : List (List (List Char)),
      (∀ p ∈ P, p ≠ []) ∧ P.join = splitOnNl message ∧
      split_long_message message max_length = P.map intercalateNl := by
  have hnotshort : ¬ (message.length ≤ max_length) := not_le.mpr hlong
  rcases hl : splitOnNl message with _ | ⟨l0, rest⟩
  · exact absurd hl (splitOnNl_ne_nil message)
  have hl0 : l0.length + 1 ≤ max_length :=
    hfit l0 (by rw [hl]; exact List.mem_cons_self _ _)
  have hrest : ∀ l ∈ rest, l.length + 1 ≤ max_length :=
    fun l hlm => hfit l (by rw [hl]; exact List.mem_cons_of_mem _ hlm)
  have hstart : split_long_message message max_length =
      split_lines_go max_length rest [] [l0] (l0.length + 1) := by
    rw [split_long_message, if_neg hnotshort, hl, split_lines_go_cons,
      if_neg (by omega)]
    norm_num
  obtain ⟨P, hPne, hPjoin, hPeq⟩ :=
    split_lines_go_parts max_length rest [] [l0] (l0.length + 1) (by simp)
  have hPjoin2 : P.join = l0 :: rest := by
    rw [hPjoin]
    simp
  have hPeq2 : split_long_message message max_length = P.map intercalateNl := by
    rw [hstart, hPeq]
    simp
  refine ⟨?_, ?_, ⟨P, hPne, hPjoin2, hPeq2⟩⟩
  · rw [hstart]
    exact split_lines_go_len max_length rest [] [l0] (l0.length + 1)
      hrest (by simp) hl0 (by simp) (by simp)
  · rw [hPeq2, intercalateNl_map_parts P hPne, hPjoin2, ← hl,
      intercalateNl_splitOnNl]

/-- Witness for C8 on the 8-character message ab-newline-cd-newline-ef with
limit 5; each line fits (length 2 + 1 ≤ 5) and the message is longer than
the limit. -/
theorem C8_split_long_message_spec_witness :
    5 < ([ 'a', 'b', '\n', 'c', 'd', '\n', 'e', 'f' ] : List Char).length ∧
    (∀ l ∈ splitOnNl [ 'a', 'b', '\n', 'c', 'd', '\n', 'e', 'f' ],
      l.length + 1 ≤ 5) ∧
    ((∀ c ∈ split_long_message
        [ 'a', 'b', '\n', 'c', 'd', '\n', 'e', 'f' ] 5, c.length ≤ 5) ∧
      intercalateNl (split_long_message
        [ 'a', 'b', '\n', 'c', 'd', '\n', 'e', 'f' ] 5) =
        [ 'a', 'b', '\n', 'c', 'd', '\n', 'e', 'f' ] ∧
      ∃ P : List (List (List Char)),
        (∀ p ∈ P, p ≠ []) ∧
        P.join = splitOnNl [ 'a', 'b', '\n', 'c', 'd', '\n', 'e', 'f' ] ∧
        split_long_message [ 'a', 'b', '\n', 'c', 'd', '\n', 'e', 'f' ] 5 =
          P.map intercalateNl) :=
  ⟨by decide, by decide,
    C8_split_long_message_spec 5 [ 'a', 'b', '\n', 'c', 'd', '\n', 'e', 'f' ]
      (by decide) (by decide)⟩

/-- Helper: each day of the backtest loop appends exactly one equity entry
and one date. -/
theorem backtest_day_equity (data : List Bar) (tech : List Bar → TechView)
    (st : BTState) (i : Nat) :
    ∃ v : ℚ,
      (backtest_day data tech st i).equity_curve = st.equity_curve ++ [v] :=
  ⟨_, rfl⟩

/-- Helper: the day loop appends one equity entry per day. -/
theorem foldl_backtest_day_equity (data : List Bar)
    (tech : List Bar → TechView) :
    ∀ (days : List Nat) (st : BTState),
      ∃ tail : List ℚ,
        (days.foldl (backtest_day data tech) st).equity_curve =
          st.equity_curve ++ tail ∧ tail.length = days.length := by
  intro days
  induction days with
  | nil => exact fun st => ⟨[], by simp, rfl⟩
  | cons d ds ih =>
    intro st
    obtain ⟨v, hv⟩ := backtest_day_equity data tech st d
    obtain ⟨tail, htail, hlen⟩ := ih (backtest_day data tech st d)
    refine ⟨v :: tail, ?_, by simp [hlen]⟩
    rw [List.foldl_cons, htail, hv]
    simp

/-- Helper: in the branch with at least one trade, _calculate_results
reports the equity curve and its last entry as the final capital, with no
error marker. -/
theorem calculate_results_nonempty (trades : List BTTrade)
    (equity_curve : List ℚ) (dates : List Nat) (h : trades ≠ []) :
    (calculate_results trades equity_curve dates).equity_curve =
        some equity_curve ∧
    (calculate_results trades equity_curve dates).final_capital =
        equity_curve.getLastD 0 ∧
    (calculate_results trades equity_curve dates).error = false := by
  have hcond : ¬ (trades.isEmpty = true) := by
    cases trades with
    | nil => exact absurd rfl h
    | cons a t => simp
  simp only [calculate_results]
  rw [if_neg hcond]
  exact ⟨rfl, rfl, rfl⟩

/-- Helper: with no trades, _calculate_results returns the error dictionary
(which carries no equity curve). -/
theorem calculate_results_empty (equity_curve : List ℚ) (dates : List Nat) :
    (calculate_results [] equity_curve dates).error = true := rfl

/-- Helper: shape of the equity curve in every backtest result — either the
no-trades error dictionary (which carries no equity curve), or a curve of
data.length − 200 + 1 entries headed by the initial capital whose last
entry is the reported final capital. -/
theorem run_backtest_equity_shape (data : List Bar)
    (tech : List Bar → TechView) :
    (run_backtest data tech).error = true ∨
    ((run_backtest data tech).equity_curve.map List.length =
        some (data.length - 200 + 1) ∧
      (run_backtest data tech).equity_curve.map List.head? =
        some (some backtest_initial_capital) ∧
      (run_backtest data tech).equity_curve.map (fun ec => ec.getLastD 0) =
        some ((run_backtest data tech).final_capital)) := by
  obtain ⟨tail, htail, hlen⟩ :=
    foldl_backtest_day_equity data tech (backtest_days data) backtest_st0
  have hEq : (backtest_final_state data tech).equity_curve =
      backtest_initial_capital :: tail := by
    rw [backtest_final_state, htail]
    rfl
  have hdays : (backtest_days data).length = data.length - 200 := by
    simp [backtest_days]
  have hrb : run_backtest data tech = calculate_results
      (close_positions ((data.map Bar.close).getLastD 0) (data.length - 1)
        (backtest_final_state data tech).positions
        (backtest_final_state data tech).capital
        (backtest_final_state data tech).trades).2
      (backtest_final_state data tech).equity_curve
      (backtest_final_state data tech).dates := rfl
  rcases eq_or_ne (close_positions ((data.map Bar.close).getLastD 0)
      (data.length - 1) (backtest_final_state data tech).positions
      (backtest_final_state data tech).capital
      (backtest_final_state data tech).trades).2 [] with hTe | hTne
  · left
    rw [hrb, hTe]
    exact calculate_results_empty _ _
  · right
    obtain ⟨hec, hfc, _⟩ := calculate_results_nonempty _
      (backtest_final_state data tech).equity_curve
      (backtest_final_state data tech).dates hTne
    rw [hrb, hec, hfc]
    refine ⟨?_, ?_, ?_⟩
    · rw [hEq]
      simp only [Option.map_some', List.length_cons]
      rw [hlen, hdays, Nat.add_comm]
    · rw [hEq]
      simp
    · simp

/-- C4 (amended): for every run over more than 200 bars, either the result
is the no-trades error dictionary (no equity curve at all), or the equity
curve has data.length − 200 + 1 entries — the pre-loop seed entry equal to
the initial capital followed by exactly one entry per simulated day from
day 200 on — and its final entry is the reported final capital. -/
theorem C4_run_backtest_equity_spec (data : List Bar)
    (tech : List Bar → TechView) (h200 : 200 < data.length) :
    (run_backtest data tech).error = true ∨
    ((run_backtest data tech).equity_curve.map List.length =
        some (data.length - 200 + 1) ∧
      (run_backtest data tech).equity_curve.map List.head? =
        some (some backtest_initial_capital) ∧
      (run_backtest data tech).equity_curve.map (fun ec => ec.getLastD 0) =
        some ((run_backtest data tech).final_capital)) :=
  run_backtest_equity_shape data tech

/-- One bar of the concrete counterexample series, bar i = ⟨20000 − i,
7800 + i, 7950⟩: strictly decreasing highs and strictly increasing lows
make bar 0 the only local extremum on each side, and the constant close of
7950 sits within 2% of the backfilled nearest support level 7802, so the
backtest buys on day 200. -/
def bt_cx_bar (i : Nat) : Bar := ⟨(20000 : ℚ) - i, (7800 : ℚ) + i, 7950⟩

/-- The 201-bar counterexample series. -/
def bt_cx_data : List Bar := (List.range 201).map bt_cx_bar

/-- Technical-analyzer oracle for the counterexample: ATR 1 and RSI
oversold on every day, which triggers the buy signal at day 200. -/
def bt_cx_tech : List Bar → TechView := fun _ => ⟨1, true, false⟩

/-- Helper: antisymmetry of the descending order used by sortDesc. -/
instance isAntisymmGeRat : IsAntisymm ℚ (fun a b : ℚ => b ≤ a) :=
  ⟨fun _ _ h1 h2 => le_antisymm h2 h1⟩

/-- Helper: closing the remaining positions appends exactly one trade per
open position. -/
theorem close_positions_trades_length (final_price : ℚ) (last_date : Nat) :
    ∀ (ps : List BTPosition) (capital : ℚ) (trades : List BTTrade),
      ((close_positions final_price last_date ps capital trades).2).length =
        trades.length + ps.length := by
  intro ps
  induction ps with
  | nil => intro capital trades; simp [close_positions]
  | cons p rest ih =>
    intro capital trades
    simp only [close_positions]
    rw [ih]
    simp only [List.length_append, List.length_cons, List.length_nil]
    omega

attribute [local semireducible] Rat.add Rat.mul Rat.sub Rat.inv

set_option maxRecDepth 40000 in
/-- Helper: on the counterexample series, the only local low extremum
within 5 positions on each side is bar 0 (the lows increase strictly). -/
theorem bt_cx_argrel_min :
    argrel_min_indices (bt_cx_data.map Bar.low) 5 = [0] := by
  decide

set_option maxRecDepth 40000 in
/-- Helper: on the counterexample series, the only local high extremum is
bar 0 (the highs decrease strictly). -/
theorem bt_cx_argrel_max :
    argrel_max_indices (bt_cx_data.map Bar.high) 5 = [0] := by
  decide

set_option maxRecDepth 100000

/-- Helper: a monotone image of range is pairwise related. -/
theorem pairwise_range_map_mono (n : Nat) (f : Nat → ℚ) (R : ℚ → ℚ → Prop)
    (hf : ∀ i j : Nat, i < j → R (f i) (f j)) :
    List.Pairwise R ((List.range n).map f) :=
  List.pairwise_map.mpr ((List.pairwise_lt_range n).imp (fun hij => hf _ _ hij))

/-- Helper: the low column of the counterexample series, as a mapped
range. -/
theorem bt_cx_lows_eq :
    bt_cx_data.map Bar.low =
      (List.range 201).map (fun i => (7800 : ℚ) + i) := by
  rw [bt_cx_data, List.map_map]
  rfl

/-- Helper: the low column of the counterexample series is already sorted
ascending, so the Python sorted() of its last 252 entries is itself. -/
theorem bt_cx_sort_lows :
    sortAsc (lastN (bt_cx_data.map Bar.low) 252) =
      bt_cx_data.map Bar.low := by
  have h0 : (bt_cx_data.map Bar.low).length - 252 = 0 := by decide
  rw [lastN, h0, List.drop_zero]
  apply List.eq_of_perm_of_sorted (List.perm_insertionSort _ _)
    (List.sorted_insertionSort _ _)
  rw [bt_cx_lows_eq]
  exact pairwise_range_map_mono 201 (fun i => (7800 : ℚ) + i)
    (fun a b => a ≤ b)
    (fun i j hij => add_le_add_left (Nat.cast_le.mpr (Nat.le_of_lt hij)) 7800)

/-- Helper: the high column of the counterexample series, as a mapped
range. -/
theorem bt_cx_highs_eq :
    bt_cx_data.map Bar.high =
      (List.range 201).map (fun i => (20000 : ℚ) - i) := by
  rw [bt_cx_data, List.map_map]
  rfl

/-- Helper: the high column of the counterexample series is already sorted
descending, so the Python sorted(reverse) of its last 252 entries is
itself. -/
theorem bt_cx_sort_highs :
    sortDesc (lastN (bt_cx_data.map Bar.high) 252) =
      bt_cx_data.map Bar.high := by
  have h0 : (bt_cx_data.map Bar.high).length - 252 = 0 := by decide
  rw [lastN, h0, List.drop_zero]
  apply List.eq_of_perm_of_sorted (List.perm_insertionSort _ _)
    (List.sorted_insertionSort _ _)
  rw [bt_cx_highs_eq]
  exact pairwise_range_map_mono 201 (fun i => (20000 : ℚ) - i)
    (fun a b => b ≤ a)
    (fun i j hij => sub_le_sub_left (Nat.cast_le.mpr (Nat.le_of_lt hij)) 20000)

set_option maxRecDepth 40000 in
/-- Helper: the last close of the counterexample series. -/
theorem bt_cx_close : (bt_cx_data.map Bar.close).getLastD 0 = 7950 := by
  decide

set_option maxRecDepth 40000 in
/-- Helper: the support/resistance levels found on the counterexample
series: the clustered extrema give support 7800 and resistance 20000, and
the backfill from the three lowest lows and three highest highs fills the
lists to [7802, 7801, 7800] and [19998, 19999, 20000]. -/
theorem bt_cx_sr_levels :
    find_support_resistance_levels bt_cx_data 5 3 =
      ⟨[7802, 7801, 7800], [19998, 19999, 20000], 7950⟩ := by
  simp only [find_support_resistance_levels]
  rw [bt_cx_argrel_min, bt_cx_argrel_max, bt_cx_close, bt_cx_sort_lows,
    bt_cx_sort_highs]
  decide

set_option maxRecDepth 40000 in
/-- Helper: day 200 of the counterexample run opens exactly one position
and completes no trade. -/
theorem bt_cx_day200 :
    (backtest_day bt_cx_data bt_cx_tech backtest_st0 200).positions.length
        = 1 ∧
    (backtest_day bt_cx_data bt_cx_tech backtest_st0 200).trades = [] := by
  have htake : bt_cx_data.take (200 + 1) = bt_cx_data := by decide
  constructor
  · simp only [backtest_day, htake, bt_cx_sr_levels, bt_cx_close]
    decide
  · simp only [backtest_day, htake, bt_cx_sr_levels, bt_cx_close]
    decide

/-- Helper: the counterexample run executes at least one trade, so its
result is not the error dictionary. -/
theorem bt_cx_run_no_error :
    (run_backtest bt_cx_data bt_cx_tech).error = false := by
  have hdays : backtest_days bt_cx_data = [200] := by decide
  have hfold : backtest_final_state bt_cx_data bt_cx_tech =
      backtest_day bt_cx_data bt_cx_tech backtest_st0 200 := by
    rw [backtest_final_state, hdays]
    rfl
  have hrb : run_backtest bt_cx_data bt_cx_tech = calculate_results
      (close_positions ((bt_cx_data.map Bar.close).getLastD 0)
        (bt_cx_data.length - 1)
        (backtest_final_state bt_cx_data bt_cx_tech).positions
        (backtest_final_state bt_cx_data bt_cx_tech).capital
        (backtest_final_state bt_cx_data bt_cx_tech).trades).2
      (backtest_final_state bt_cx_data bt_cx_tech).equity_curve
      (backtest_final_state bt_cx_data bt_cx_tech).dates := rfl
  have hTne : (close_positions ((bt_cx_data.map Bar.close).getLastD 0)
      (bt_cx_data.length - 1)
      (backtest_final_state bt_cx_data bt_cx_tech).positions
      (backtest_final_state bt_cx_data bt_cx_tech).capital
      (backtest_final_state bt_cx_data bt_cx_tech).trades).2 ≠ [] := by
    intro habs
    have hlen := close_positions_trades_length
      ((bt_cx_data.map Bar.close).getLastD 0) (bt_cx_data.length - 1)
      (backtest_final_state bt_cx_data bt_cx_tech).positions
      (backtest_final_state bt_cx_data bt_cx_tech).capital
      (backtest_final_state bt_cx_data bt_cx_tech).trades
    rw [habs] at hlen
    rw [hfold, bt_cx_day200.2, bt_cx_day200.1] at hlen
    simp at hlen
  rw [hrb]
  exact (calculate_results_nonempty _ _ _ hTne).2.2

/-- C4 counterexample: on the 201-bar series the backtest executes one trade
and reports an equity curve with 2 entries, while the claim predicts
len(data) − 200 = 1 entries — the pre-loop seed entry makes it one longer. -/
theorem C4_run_backtest_equity_counterexample :
    (run_backtest bt_cx_data bt_cx_tech).equity_curve.map List.length =
      some 2 ∧
    bt_cx_data.length - 200 = 1 ∧
    (2 : Nat) ≠ bt_cx_data.length - 200 := by
  rcases run_backtest_equity_shape bt_cx_data bt_cx_tech with h | h
  · rw [bt_cx_run_no_error] at h
    exact absurd h (by simp)
  · refine ⟨?_, by decide, by decide⟩
    have hlen : bt_cx_data.length - 200 + 1 = 2 := by decide
    rw [← hlen]
    exact h.1

/-- Witness for C4 (amended) on the 201-bar series, discharging the
more-than-200-bars hypothesis. -/
theorem C4_run_backtest_equity_spec_witness :
    200 < bt_cx_data.length ∧
    ((run_backtest bt_cx_data bt_cx_tech).error = true ∨
      ((run_backtest bt_cx_data bt_cx_tech).equity_curve.map List.length =
          some (bt_cx_data.length - 200 + 1) ∧
        (run_backtest bt_cx_data bt_cx_tech).equity_curve.map List.head? =
          some (some backtest_initial_capital) ∧
        (run_backtest bt_cx_data bt_cx_tech).equity_curve.map
            (fun ec => ec.getLastD 0) =
          some ((run_backtest bt_cx_data bt_cx_tech).final_capital))) :=
  ⟨by decide, C4_run_backtest_equity_spec bt_cx_data bt_cx_tech (by decide)⟩
